import Mathlib

/-!
Verification of the tool-call reconciliation and execution pipeline of the
cf_ai_github_agent repository.

The concrete tool registry and the individual tool executors are embedded
from src (tools.ts).  The History Sanitizer (cleanupMessages) and the
Tool-Call Resolver (processToolCalls) live in src/utils.ts, which is not
part of the provided sources (only their call site in Chat.onChatMessage
is); they are therefore modelled from the specification, as marked on each
definition below.
-/

namespace GithubAgent

/-- State of a tool invocation, from the data model of the spec (section 3). -/
inductive ToolState
  | inputStreaming
  | inputAvailable
  | confirmationPending
  | approved
  | rejected
  | outputAvailable
  | outputError
deriving DecidableEq, Repr

/-- Terminal states: output-available, output-error, rejected (spec section 4.3). -/
def ToolState.isTerminal : ToolState → Bool
  | .rejected => true
  | .outputAvailable => true
  | .outputError => true
  | _ => false

/-- The human decision carried alongside a confirmation-gated invocation.
A malformed decision payload (neither approve nor reject) is treated as
not yet decided, per the failure semantics of the spec (section 4.3). -/
inductive Decision
  | approve
  | reject
  | undecided
deriving DecidableEq, Repr

/-- One invocation of a named tool.  Arguments are kept opaque as a string
(for the weather tool this is the city); the result is present only in
terminal states. -/
structure ToolInvocation where
  callId : Nat
  toolName : String
  args : String
  state : ToolState
  result : Option String
  decision : Decision
deriving DecidableEq, Repr

/-- A message part: either text or a tool invocation (spec section 3). -/
inductive Part
  | text (content : String)
  | toolInvocation (inv : ToolInvocation)
deriving DecidableEq, Repr

/-- A conversation message: ordered parts, role, identifier. -/
structure Message where
  id : Nat
  role : String
  parts : List Part
deriving DecidableEq, Repr

/-- An executor: receives the (validated) arguments, returns a result or
throws; throwing is modelled with the error branch of Except. -/
abbrev Exec := String → Except String String

/-- A registry entry: a tool is exactly one of auto-executing (its executor
is invoked by the Orchestrator, outside the Resolver, spec section 6) or
confirmation-gated, carrying the confirmation-executor invoked only by the
Resolver. -/
inductive ToolEntry
  | auto
  | gated (confirmationExecutor : Exec)

/-- The Tool Registry: tool name to entry, none for unknown tools. -/
abbrev Registry := String → Option ToolEntry

/-- Is the named tool auto-executing in the given registry? -/
def isAuto (reg : Registry) (name : String) : Bool :=
  match reg name with
  | some .auto => true
  | _ => false

/-- A streaming update event: one per state transition
(callId, toolName, newState, result), spec section 6. -/
structure Event where
  callId : Nat
  toolName : String
  newState : ToolState
  result : Option String
deriving DecidableEq, Repr

/-- Modelled from the spec: the fixed synthesized rejection message that a
rejected invocation receives as its terminal result (section 4.3, step 3;
the exact text is not fixed by the spec). -/
def rejectionMessage : String := "Error: the user rejected the tool invocation"

/-- Modelled from the spec: which parts the History Sanitizer keeps.  A
tool invocation in state input-streaming is dropped; every other part is
kept (section 4.1). -/
def keepPart : Part → Bool
  | .text _ => true
  | .toolInvocation inv =>
    match inv.state with
    | .inputStreaming => false
    | _ => true

/-- Modelled from the spec: the History Sanitizer cleanupMessages of
src/utils.ts, absent from the provided sources.  Scans messages in order,
drops every input-streaming invocation from its message, and drops any
message left with zero parts (section 4.1). -/
def cleanupMessages (ms : List Message) : List Message :=
  (ms.map (fun m => { m with parts := m.parts.filter keepPart })).filter
    (fun m => !m.parts.isEmpty)

/-- Modelled from the spec: the Resolver action on one part (section 4.3).
Returns the rewritten part (none when the invocation is excluded from the
log handed onward), the emitted stream events, and the callIds for which a
confirmation-executor was invoked during this step.
Confirmation-gated invocations in a non-terminal state are resolved by the
human decision carried alongside: approve runs the confirmation-executor
(success gives output-available, a thrown error gives output-error with the
error message as result, section 4.3 step 4); reject gives the synthesized
terminal rejection without any executor call (step 3); undecided invocations
are excluded from the log handed onward (step 2).  Text parts, terminal
invocations and auto-executing tools are untouched; an invocation of a tool
absent from the registry is terminated as output-error (UnknownTool,
section 7). -/
def resolvePart (reg : Registry) (p : Part) : Option Part × List Event × List Nat :=
  match p with
  | .text s => (some (.text s), [], [])
  | .toolInvocation inv =>
    match inv.state.isTerminal with
    | true => (some (.toolInvocation inv), [], [])
    | false =>
      match reg inv.toolName with
      | some .auto => (some (.toolInvocation inv), [], [])
      | none =>
        (some (.toolInvocation
            { inv with state := .outputError,
                       result := some ("Unknown tool: " ++ inv.toolName) }),
         [⟨inv.callId, inv.toolName, .outputError,
           some ("Unknown tool: " ++ inv.toolName)⟩], [])
      | some (.gated exec) =>
        match inv.decision with
        | .undecided => (none, [], [])
        | .reject =>
          (some (.toolInvocation
              { inv with state := .rejected, result := some rejectionMessage }),
           [⟨inv.callId, inv.toolName, .rejected, some rejectionMessage⟩], [])
        | .approve =>
          match exec inv.args with
          | .ok r =>
            (some (.toolInvocation
                { inv with state := .outputAvailable, result := some r }),
             [⟨inv.callId, inv.toolName, .outputAvailable, some r⟩],
             [inv.callId])
          | .error e =>
            (some (.toolInvocation
                { inv with state := .outputError, result := some e }),
             [⟨inv.callId, inv.toolName, .outputError, some e⟩],
             [inv.callId])

/-- Result of resolving a list of parts: rewritten parts, events in
invocation order, callIds of executed confirmation-executors in order. -/
structure PassOut where
  parts : List Part
  events : List Event
  executed : List Nat
deriving DecidableEq, Repr

/-- Modelled from the spec: the reconciliation pass over the parts of one
message, strictly in part order (section 4.3, step 5). -/
def resolveParts (reg : Registry) : List Part → PassOut
  | [] => ⟨[], [], []⟩
  | p :: ps =>
    let r := resolvePart reg p
    let rest := resolveParts reg ps
    ⟨r.1.toList ++ rest.parts, r.2.1 ++ rest.events, r.2.2 ++ rest.executed⟩

/-- Result of one whole reconciliation pass: the rewritten log, the events
in commit order, and the callIds whose confirmation-executor was invoked. -/
structure ResolveResult where
  messages : List Message
  events : List Event
  executed : List Nat
deriving DecidableEq, Repr

/-- Modelled from the spec: the Tool-Call Resolver processToolCalls of
src/utils.ts, absent from the provided sources.  One reconciliation pass
over the sanitized log, in message order then part order; each message's
parts are rewritten in place (section 4.3). -/
def processToolCalls (reg : Registry) : List Message → ResolveResult
  | [] => ⟨[], [], []⟩
  | m :: ms =>
    let r := resolveParts reg m.parts
    let rest := processToolCalls reg ms
    ⟨{ m with parts := r.parts } :: rest.messages,
     r.events ++ rest.events,
     r.executed ++ rest.executed⟩

/-- The tool invocations carried by one part. -/
def partInvs : Part → List ToolInvocation
  | .text _ => []
  | .toolInvocation inv => [inv]

/-- All tool invocations of a log, in message order then part order. -/
def invocations (ms : List Message) : List ToolInvocation :=
  (ms.map (fun m => (m.parts.map partInvs).flatten)).flatten

/-- The callIds carried by one part. -/
def partCallIds : Part → List Nat
  | .text _ => []
  | .toolInvocation inv => [inv.callId]

/-- All callIds of a log, in message order then part order. -/
def allCallIds (ms : List Message) : List Nat :=
  (ms.map (fun m => (m.parts.map partCallIds).flatten)).flatten

/-- Iterated reconciliation: run 0 is the original log, run n+1 is the log
returned by the previous pass. -/
def iterResolve (reg : Registry) (ms : List Message) : Nat → List Message
  | 0 => ms
  | n + 1 => (processToolCalls reg (iterResolve reg ms n)).messages

/-- All confirmation-executor invocations accumulated over the first n
reconciliation passes, each pass re-run over the log the previous one
returned. -/
def executedThrough (reg : Registry) (ms : List Message) : Nat → List Nat
  | 0 => []
  | n + 1 =>
    executedThrough reg ms n ++
      (processToolCalls reg (iterResolve reg ms n)).executed

/-! Concrete tools, embedded from src (tools.ts). -/

/-- Result of one sandbox.exec call (the Cloudflare sandbox interface):
an exit status flag plus captured stdout and stderr. -/
structure ExecResult where
  success : Bool
  stdout : String
  stderr : String
deriving DecidableEq, Repr

/-- The sandbox, modelled at its interface boundary: a command string in,
an ExecResult out (one completed execution per command). -/
abbrev Sandbox := String → ExecResult

namespace executions

/-- The confirmation-executor for getWeatherInformation, from tools.ts:
it returns the string saying the weather in the given city is sunny, for
every city.  (The console.log line is external output, not modelled.) -/
def getWeatherInformation (city : String) : String :=
  "The weather in " ++ city ++ " is sunny"

end executions

/-- The auto-executing getLocalTime tool, from tools.ts.  First component:
the console log line (which mentions the location); second component: the
value returned to the model, the constant string 10am. -/
def getLocalTime (location : String) : String × String :=
  ("Getting local time for " ++ location, "10am")

/-- The cloneRepository tool, from tools.ts.  Runs two git config commands
and the git clone in the sandbox, ignores all three results, and returns
the fixed success string.  First component: the returned string; second
component: the commands handed to the sandbox, in order. -/
def cloneRepository (sandbox : Sandbox) (repoUrl : String) : String × List String :=
  let c1 := "git config --global user.name \"Github Bot\""
  let c2 := "git config --global user.email \"fake@agent.com\""
  let c3 := "git clone " ++ repoUrl
  let _ := sandbox c1
  let _ := sandbox c2
  let _ := sandbox c3
  ("Repository cloned successfully", [c1, c2, c3])

/-- The commandExecutor tool, from tools.ts.  Runs the command in the
sandbox and returns (never throws, hence always the ok branch) stdout on
success and stderr on failure. -/
def commandExecutor (sandbox : Sandbox) (command : String) : Except String String :=
  let result := sandbox command
  match result.success with
  | true => Except.ok result.stdout
  | false => Except.ok result.stderr

/-- One tool declaration of the tools object of tools.ts: its name and
whether the tool call carries an execute function (auto-executing) or omits
it (which makes the tool require human confirmation). -/
structure ToolDecl where
  name : String
  hasExecute : Bool
deriving DecidableEq, Repr

/-- The tools object of tools.ts, in declaration order: each of the twelve
registered tools with whether it declares an execute function.  Only
getWeatherInformation omits execute. -/
def tools : List ToolDecl :=
  [⟨"getWeatherInformation", false⟩,
   ⟨"getLocalTime", true⟩,
   ⟨"scheduleTask", true⟩,
   ⟨"getScheduledTasks", true⟩,
   ⟨"cancelScheduledTask", true⟩,
   ⟨"listIssues", true⟩,
   ⟨"cloneRepository", true⟩,
   ⟨"listAllFiles", true⟩,
   ⟨"readFile", true⟩,
   ⟨"writeFile", true⟩,
   ⟨"commandExecutor", true⟩,
   ⟨"createPullRequest", true⟩]

/-- The names of the executions object of tools.ts: the separately
registered confirmation-executors.  It holds exactly
getWeatherInformation. -/
def executionNames : List String := ["getWeatherInformation"]

/-- The weather confirmation-executor wrapped as a registry executor: it
always succeeds with the string produced by the executions object. -/
def weatherExec : Exec := fun city => Except.ok (executions.getWeatherInformation city)

/-- The registry assembled from tools.ts as used by Chat.onChatMessage:
getWeatherInformation is confirmation-gated with the weather executor, every
other declared tool is auto-executing, anything else is unknown. -/
def toolRegistry : Registry := fun name =>
  if name = "getWeatherInformation" then some (.gated weatherExec)
  else if (tools.map (fun d => d.name)).contains name then some .auto
  else none

/-- A pending weather invocation for Paris carrying an approve decision
(scenario 2 of the spec). -/
def parisInvocation : ToolInvocation :=
  ⟨7, "getWeatherInformation", "Paris", .confirmationPending, none, .approve⟩

/-- A one-message log holding only the pending approved Paris weather
invocation. -/
def parisLog : List Message :=
  [⟨1, "assistant", [.toolInvocation parisInvocation]⟩]

/-- A confirmation-executor that always throws. -/
def failingExec : Exec := fun _ => Except.error "executor failed"

/-- A registry with one confirmation-gated tool whose executor always
throws. -/
def failingRegistry : Registry := fun name =>
  if name = "deployService" then some (.gated failingExec) else none

/-- A pending invocation of the always-failing gated tool, carrying an
approve decision. -/
def failInvocation : ToolInvocation :=
  ⟨3, "deployService", "prod", .confirmationPending, none, .approve⟩

/-- A pending weather invocation carrying a reject decision. -/
def rejectInvocation : ToolInvocation :=
  ⟨9, "getWeatherInformation", "London", .confirmationPending, none, .reject⟩

/-- A log with an interrupted (input-streaming) invocation in its first
message and a pending rejected weather invocation in its second. -/
def mixedLog : List Message :=
  [⟨1, "assistant",
     [.toolInvocation ⟨4, "getWeatherInformation", "Oslo", .inputStreaming, none, .undecided⟩,
      .text "checking"]⟩,
   ⟨2, "assistant", [.toolInvocation rejectInvocation]⟩]

/-- The terminal invocation the reconciliation pass leaves in the log for
the rejected weather invocation of mixedLog. -/
def mixedResolvedInvocation : ToolInvocation :=
  ⟨9, "getWeatherInformation", "London", .rejected, some rejectionMessage, .reject⟩

/-- Unfolding lemma: resolving an empty part list. -/
theorem resolveParts_nil (reg : Registry) : resolveParts reg [] = ⟨[], [], []⟩ := rfl

/-- Unfolding lemma: resolving a part list head first. -/
theorem resolveParts_cons (reg : Registry) (p : Part) (ps : List Part) :
    resolveParts reg (p :: ps) =
      ⟨(resolvePart reg p).1.toList ++ (resolveParts reg ps).parts,
       (resolvePart reg p).2.1 ++ (resolveParts reg ps).events,
       (resolvePart reg p).2.2 ++ (resolveParts reg ps).executed⟩ := rfl

/-- Unfolding lemma: one pass over an empty log. -/
theorem processToolCalls_nil (reg : Registry) :
    processToolCalls reg [] = ⟨[], [], []⟩ := rfl

/-- Unfolding lemma: one pass over a log, head message first. -/
theorem processToolCalls_cons (reg : Registry) (m : Message) (ms : List Message) :
    processToolCalls reg (m :: ms) =
      ⟨{ m with parts := (resolveParts reg m.parts).parts } :: (processToolCalls reg ms).messages,
       (resolveParts reg m.parts).events ++ (processToolCalls reg ms).events,
       (resolveParts reg m.parts).executed ++ (processToolCalls reg ms).executed⟩ := rfl

/-- The pass rewrites each message in place: the returned log is the input
log with every message's parts replaced by their resolution (order and
count of messages preserved). -/
theorem processToolCalls_messages (reg : Registry) (ms : List Message) :
    (processToolCalls reg ms).messages =
      ms.map (fun m => { m with parts := (resolveParts reg m.parts).parts }) := by
  induction ms with
  | nil => rfl
  | cons m ms ih => rw [processToolCalls_cons, List.map_cons, ih]

/-- The pass distributes over concatenation of part lists, componentwise
and order-preserving. -/
theorem resolveParts_append (reg : Registry) (xs ys : List Part) :
    resolveParts reg (xs ++ ys) =
      ⟨(resolveParts reg xs).parts ++ (resolveParts reg ys).parts,
       (resolveParts reg xs).events ++ (resolveParts reg ys).events,
       (resolveParts reg xs).executed ++ (resolveParts reg ys).executed⟩ := by
  induction xs with
  | nil => rfl
  | cons p xs ih =>
    rw [List.cons_append, resolveParts_cons, ih, resolveParts_cons]
    simp [List.append_assoc]

/-- Every part the pass outputs is a fixed point of the pass: resolving it
again keeps it unchanged, emits no event, and executes nothing. -/
theorem resolvePart_fixed (reg : Registry) (p q : Part)
    (h : (resolvePart reg p).1 = some q) :
    resolvePart reg q = (some q, [], []) := by
  rcases p with s | inv
  · simp [resolvePart] at h
    subst h
    rfl
  · cases hterm : inv.state.isTerminal with
    | true =>
      simp [resolvePart, hterm] at h
      subst h
      simp [resolvePart, hterm]
    | false =>
      cases hreg : reg inv.toolName with
      | none =>
        simp [resolvePart, hterm, hreg] at h
        subst h
        simp [resolvePart, ToolState.isTerminal]
      | some entry =>
        cases entry with
        | auto =>
          simp [resolvePart, hterm, hreg] at h
          subst h
          simp [resolvePart, hterm, hreg]
        | gated exec =>
          cases hdec : inv.decision with
          | undecided => simp [resolvePart, hterm, hreg, hdec] at h
          | reject =>
            simp [resolvePart, hterm, hreg, hdec] at h
            subst h
            simp [resolvePart, ToolState.isTerminal]
          | approve =>
            cases hexec : exec inv.args with
            | ok r =>
              simp [resolvePart, hterm, hreg, hdec, hexec] at h
              subst h
              simp [resolvePart, ToolState.isTerminal]
            | error e =>
              simp [resolvePart, hterm, hreg, hdec, hexec] at h
              subst h
              simp [resolvePart, ToolState.isTerminal]

/-- Re-resolving the parts a pass produced is a no-op: the parts come back
unchanged, with no events and no executor calls. -/
theorem resolveParts_fixed (reg : Registry) (ps : List Part) :
    resolveParts reg (resolveParts reg ps).parts =
      ⟨(resolveParts reg ps).parts, [], []⟩ := by
  induction ps with
  | nil => rfl
  | cons p ps ih =>
    rw [resolveParts_cons]
    cases ho : (resolvePart reg p).1 with
    | none => simpa [ho] using ih
    | some q =>
      have hq := resolvePart_fixed reg p q ho
      simp only [ho, Option.toList_some, List.singleton_append]
      rw [resolveParts_cons, hq, ih]
      simp

/-- Re-running the reconciliation pass over the log it returned is a no-op:
same log back, zero events, zero executor calls. -/
theorem processToolCalls_fixed (reg : Registry) (ms : List Message) :
    processToolCalls reg (processToolCalls reg ms).messages =
      ⟨(processToolCalls reg ms).messages, [], []⟩ := by
  induction ms with
  | nil => rfl
  | cons m ms ih =>
    rw [processToolCalls_cons, processToolCalls_cons]
    simp only []
    rw [resolveParts_fixed, ih]
    simp

/-- Every iterated log beyond the first pass equals the first pass's
output. -/
theorem iterResolve_succ (reg : Registry) (ms : List Message) (n : Nat) :
    iterResolve reg ms (n + 1) = (processToolCalls reg ms).messages := by
  induction n with
  | zero => rfl
  | succ n ih =>
    show (processToolCalls reg (iterResolve reg ms (n + 1))).messages = _
    rw [ih, processToolCalls_fixed]

/-- All executor invocations over any positive number of re-runs are
exactly those of the first pass: later passes execute nothing. -/
theorem executedThrough_succ (reg : Registry) (ms : List Message) (n : Nat) :
    executedThrough reg ms (n + 1) = (processToolCalls reg ms).executed := by
  induction n with
  | zero =>
    show [] ++ (processToolCalls reg ms).executed = _
    rw [List.nil_append]
  | succ n ih =>
    show executedThrough reg ms (n + 1) ++
        (processToolCalls reg (iterResolve reg ms (n + 1))).executed = _
    rw [ih, iterResolve_succ, processToolCalls_fixed, List.append_nil]

/-- One part contributes at most its own callId to the executed list. -/
theorem resolvePart_executed_sublist (reg : Registry) (p : Part) :
    List.Sublist (resolvePart reg p).2.2 (partCallIds p) := by
  rcases p with s | inv
  · simp [resolvePart, partCallIds]
  · cases hterm : inv.state.isTerminal with
    | true => simp [resolvePart, hterm, partCallIds]
    | false =>
      cases hreg : reg inv.toolName with
      | none => simp [resolvePart, hterm, hreg, partCallIds]
      | some entry =>
        cases entry with
        | auto => simp [resolvePart, hterm, hreg, partCallIds]
        | gated exec =>
          cases hdec : inv.decision with
          | undecided => simp [resolvePart, hterm, hreg, hdec, partCallIds]
          | reject => simp [resolvePart, hterm, hreg, hdec, partCallIds]
          | approve =>
            cases hexec : exec inv.args with
            | ok r => simp [resolvePart, hterm, hreg, hdec, hexec, partCallIds]
            | error e => simp [resolvePart, hterm, hreg, hdec, hexec, partCallIds]

/-- The executed list of a pass over a part list is a sublist of the
callIds of those parts. -/
theorem resolveParts_executed_sublist (reg : Registry) (ps : List Part) :
    List.Sublist (resolveParts reg ps).executed (ps.map partCallIds).flatten := by
  induction ps with
  | nil => simp [resolveParts_nil]
  | cons p ps ih =>
    rw [resolveParts_cons]
    simp only [List.map_cons, List.flatten_cons]
    exact List.Sublist.append (resolvePart_executed_sublist reg p) ih

/-- The executed list of a whole pass is a sublist of the callIds of the
log. -/
theorem processToolCalls_executed_sublist (reg : Registry) (ms : List Message) :
    List.Sublist (processToolCalls reg ms).executed (allCallIds ms) := by
  induction ms with
  | nil => simp [processToolCalls_nil, allCallIds]
  | cons m ms ih =>
    rw [processToolCalls_cons]
    show List.Sublist (_ ++ _) (allCallIds (m :: ms))
    have : allCallIds (m :: ms) =
        (m.parts.map partCallIds).flatten ++ allCallIds ms := by
      simp [allCallIds]
    rw [this]
    exact List.Sublist.append (resolveParts_executed_sublist reg m.parts) ih

/-- Filtering parts through the sanitizer predicate twice is the same as
filtering once. -/
theorem filter_keepPart_idem (ps : List Part) :
    (ps.filter keepPart).filter keepPart = ps.filter keepPart := by
  induction ps with
  | nil => rfl
  | cons p ps ih => cases h : keepPart p <;> simp [List.filter_cons, h, ih]

/-- Mapping a pointwise-fixed function over a list is the identity. -/
theorem map_of_fixed {α : Type} (f : α → α) (l : List α)
    (h : ∀ a ∈ l, f a = a) : l.map f = l := by
  induction l with
  | nil => rfl
  | cons a l ih =>
    rw [List.map_cons, h a (List.mem_cons_self a l),
      ih (fun b hb => h b (List.mem_cons_of_mem a hb))]

/-- C3: the History Sanitizer is idempotent: sanitizing an already
sanitized log changes nothing. -/
theorem claim_C3_sanitizer_idempotent (ms : List Message) :
    cleanupMessages (cleanupMessages ms) = cleanupMessages ms := by
  have hfix : ∀ m ∈ cleanupMessages ms,
      ({ m with parts := m.parts.filter keepPart } : Message) = m := by
    intro m hm
    have hmem : m ∈ ms.map (fun m => ({ m with parts := m.parts.filter keepPart } : Message)) :=
      (List.mem_filter.mp hm).1
    obtain ⟨m₀, _, rfl⟩ := List.mem_map.mp hmem
    cases m₀
    simp [filter_keepPart_idem]
  have hne : ∀ m ∈ cleanupMessages ms, (!m.parts.isEmpty) = true :=
    fun m hm => (List.mem_filter.mp hm).2
  show ((cleanupMessages ms).map
      (fun m => { m with parts := m.parts.filter keepPart })).filter
        (fun m => !m.parts.isEmpty) = cleanupMessages ms
  rw [map_of_fixed _ _ hfix, List.filter_eq_self.mpr hne]

/-- C1: for every callId of a confirmation-gated invocation, the
confirmation-executor for that callId is invoked at most once in total, no
matter how many times the reconciliation pass is re-run over the logs the
previous passes returned, provided the callIds of the original log are
unique (Invariant I2 of the spec). -/
theorem claim_C1_at_most_once_execution (reg : Registry) (ms : List Message)
    (c : Nat) (n : Nat) (h : (allCallIds ms).Nodup) :
    (executedThrough reg ms n).count c ≤ 1 := by
  cases n with
  | zero => simp [executedThrough]
  | succ n =>
    rw [executedThrough_succ]
    have hnd : (processToolCalls reg ms).executed.Nodup :=
      List.Nodup.sublist (processToolCalls_executed_sublist reg ms) h
    exact List.nodup_iff_count_le_one.mp hnd c

/-- Witness for C1: over four re-runs starting from the Paris log, callId 7
executes at most once. -/
theorem claim_C1_at_most_once_execution_witness :
    (allCallIds parisLog).Nodup
    ∧ (executedThrough toolRegistry parisLog 4).count 7 ≤ 1 :=
  ⟨by decide, claim_C1_at_most_once_execution toolRegistry parisLog 7 4 (by decide)⟩

/-- Membership in the invocation list of a log is membership of the
corresponding part in one of its messages. -/
theorem mem_invocations {inv : ToolInvocation} {ms : List Message} :
    inv ∈ invocations ms ↔ ∃ m ∈ ms, Part.toolInvocation inv ∈ m.parts := by
  constructor
  · intro h
    rw [invocations] at h
    obtain ⟨l, hl, hinv⟩ := List.mem_flatten.mp h
    obtain ⟨m, hm, rfl⟩ := List.mem_map.mp hl
    obtain ⟨l', hl', hinv'⟩ := List.mem_flatten.mp hinv
    obtain ⟨p, hp, rfl⟩ := List.mem_map.mp hl'
    cases p with
    | text s => simp [partInvs] at hinv'
    | toolInvocation inv' =>
      simp [partInvs] at hinv'
      subst hinv'
      exact ⟨m, hm, hp⟩
  · rintro ⟨m, hm, hp⟩
    rw [invocations]
    refine List.mem_flatten.mpr
      ⟨(m.parts.map partInvs).flatten, List.mem_map.mpr ⟨m, hm, rfl⟩, ?_⟩
    refine List.mem_flatten.mpr
      ⟨partInvs (Part.toolInvocation inv), List.mem_map.mpr ⟨_, hp, rfl⟩, ?_⟩
    simp [partInvs]

/-- Every part the pass keeps comes from some input part via resolvePart. -/
theorem mem_resolveParts (reg : Registry) (ps : List Part) (q : Part)
    (h : q ∈ (resolveParts reg ps).parts) :
    ∃ p ∈ ps, (resolvePart reg p).1 = some q := by
  induction ps with
  | nil => simp [resolveParts_nil] at h
  | cons p ps ih =>
    rw [resolveParts_cons] at h
    rcases List.mem_append.mp h with h1 | h2
    · cases ho : (resolvePart reg p).1 with
      | none => rw [ho] at h1; simp at h1
      | some q' =>
        rw [ho] at h1
        simp at h1
        subst h1
        exact ⟨p, List.mem_cons_self p ps, ho⟩
    · obtain ⟨p', hp', hq⟩ := ih h2
      exact ⟨p', List.mem_cons_of_mem p hp', hq⟩

/-- Every part of a sanitized message comes from an original message and
survives the sanitizer predicate. -/
theorem cleanup_parts_mem {ms : List Message} {m : Message} {p : Part}
    (hm : m ∈ cleanupMessages ms) (hp : p ∈ m.parts) :
    (∃ m₀ ∈ ms, p ∈ m₀.parts) ∧ keepPart p = true := by
  rw [cleanupMessages] at hm
  have hm1 := (List.mem_filter.mp hm).1
  obtain ⟨m₀, hm₀, rfl⟩ := List.mem_map.mp hm1
  have hp' : p ∈ m₀.parts.filter keepPart := hp
  exact ⟨⟨m₀, hm₀, (List.mem_filter.mp hp').1⟩, (List.mem_filter.mp hp').2⟩

/-- An invocation the pass outputs is never confirmation-pending or
input-streaming, provided the input part survives the sanitizer and is not
a pending invocation of an auto-executing tool. -/
theorem resolvePart_out_no_pending (reg : Registry) (p : Part) (inv : ToolInvocation)
    (hkeep : keepPart p = true)
    (hauto : ∀ inv₀, p = Part.toolInvocation inv₀ →
      inv₀.state = .confirmationPending → isAuto reg inv₀.toolName = false)
    (hres : (resolvePart reg p).1 = some (Part.toolInvocation inv)) :
    inv.state ≠ .confirmationPending ∧ inv.state ≠ .inputStreaming := by
  rcases p with s | inv₀
  · simp [resolvePart] at hres
  · cases hterm : inv₀.state.isTerminal with
    | true =>
      simp [resolvePart, hterm] at hres
      subst hres
      constructor
      · intro hs; rw [hs] at hterm; simp [ToolState.isTerminal] at hterm
      · intro hs; rw [hs] at hterm; simp [ToolState.isTerminal] at hterm
    | false =>
      cases hreg : reg inv₀.toolName with
      | none =>
        simp [resolvePart, hterm, hreg] at hres
        subst hres
        exact ⟨by simp, by simp⟩
      | some entry =>
        cases entry with
        | auto =>
          simp [resolvePart, hterm, hreg] at hres
          subst hres
          constructor
          · intro hs
            have hfalse := hauto inv₀ rfl hs
            rw [isAuto, hreg] at hfalse
            simp at hfalse
          · intro hs
            simp [keepPart, hs] at hkeep
        | gated exec =>
          cases hdec : inv₀.decision with
          | undecided => simp [resolvePart, hterm, hreg, hdec] at hres
          | reject =>
            simp [resolvePart, hterm, hreg, hdec] at hres
            subst hres
            exact ⟨by simp, by simp⟩
          | approve =>
            cases hexec : exec inv₀.args with
            | ok r =>
              simp [resolvePart, hterm, hreg, hdec, hexec] at hres
              subst hres
              exact ⟨by simp, by simp⟩
            | error e =>
              simp [resolvePart, hterm, hreg, hdec, hexec] at hres
              subst hres
              exact ⟨by simp, by simp⟩

/-- C2: the log the reconciliation pipeline (sanitize then resolve) hands
to the model call contains no invocation left in state confirmation-pending
or input-streaming, provided no confirmation-pending invocation of the
input log names an auto-executing tool (the registry contract of the spec:
auto tools never reach the Resolver confirmation-pending). -/
theorem claim_C2_no_pending_leaks (reg : Registry) (ms : List Message)
    (h : ∀ inv ∈ invocations ms,
      inv.state = .confirmationPending → isAuto reg inv.toolName = false) :
    ∀ inv ∈ invocations (processToolCalls reg (cleanupMessages ms)).messages,
      inv.state ≠ .confirmationPending ∧ inv.state ≠ .inputStreaming := by
  intro inv hmem
  obtain ⟨m', hm', hp'⟩ := mem_invocations.mp hmem
  rw [processToolCalls_messages] at hm'
  obtain ⟨m, hm, rfl⟩ := List.mem_map.mp hm'
  have hp'' : Part.toolInvocation inv ∈ (resolveParts reg m.parts).parts := hp'
  obtain ⟨p, hp, hres⟩ := mem_resolveParts reg m.parts _ hp''
  obtain ⟨⟨m₀, hm₀, hpm₀⟩, hkeep⟩ := cleanup_parts_mem hm hp
  refine resolvePart_out_no_pending reg p inv hkeep ?_ hres
  intro inv₀ hpeq hpend
  subst hpeq
  exact h inv₀ (mem_invocations.mpr ⟨m₀, hm₀, hpm₀⟩) hpend

/-- Witness for C2: on the mixed demo log the pipeline keeps the resolved
rejected weather invocation, which is neither pending nor streaming. -/
theorem claim_C2_no_pending_leaks_witness :
    mixedResolvedInvocation.state ≠ ToolState.confirmationPending
    ∧ mixedResolvedInvocation.state ≠ ToolState.inputStreaming :=
  claim_C2_no_pending_leaks toolRegistry mixedLog (by decide)
    mixedResolvedInvocation (by decide)

/-- C4: for a log containing one confirmation-pending getWeatherInformation
invocation carrying an approve decision, the reconciliation pass calls the
weather confirmation-executor (whose return for every city is the string
saying the weather in that city is sunny), the invocation transitions to
output-available with result saying the weather in Paris is sunny when the
city argument is Paris, and exactly one stream event is emitted for the
transition. -/
theorem claim_C4_weather_approval_scenario :
    (∀ city, weatherExec city =
      Except.ok ("The weather in " ++ city ++ " is sunny"))
    ∧ processToolCalls toolRegistry parisLog =
        ⟨[⟨1, "assistant",
            [.toolInvocation
              { parisInvocation with
                  state := .outputAvailable,
                  result := some "The weather in Paris is sunny" }]⟩],
         [⟨7, "getWeatherInformation", .outputAvailable,
           some "The weather in Paris is sunny"⟩],
         [7]⟩ := by
  constructor
  · intro city
    rfl
  · decide

/-- C5: a confirmation-gated invocation carrying a reject decision is
transitioned to the terminal rejected state with the fixed synthesized
rejection message as its result, one event is emitted, and no
confirmation-executor is invoked for it — neither at the invocation itself
(third component empty) nor anywhere in a pass over a log containing it
(the pass's executed list is exactly that of the surrounding parts). -/
theorem claim_C5_reject_synthesized (reg : Registry) (inv : ToolInvocation)
    (exec : Exec)
    (hg : reg inv.toolName = some (.gated exec))
    (ht : inv.state.isTerminal = false)
    (hd : inv.decision = .reject) :
    resolvePart reg (.toolInvocation inv) =
      (some (.toolInvocation
          { inv with state := .rejected, result := some rejectionMessage }),
       [⟨inv.callId, inv.toolName, .rejected, some rejectionMessage⟩], [])
    ∧ ∀ ps qs, (resolveParts reg (ps ++ Part.toolInvocation inv :: qs)).executed =
        (resolveParts reg ps).executed ++ (resolveParts reg qs).executed := by
  have h1 : resolvePart reg (.toolInvocation inv) =
      (some (.toolInvocation
          { inv with state := .rejected, result := some rejectionMessage }),
       [⟨inv.callId, inv.toolName, .rejected, some rejectionMessage⟩], []) := by
    simp [resolvePart, ht, hg, hd]
  refine ⟨h1, fun ps qs => ?_⟩
  rw [resolveParts_append, resolveParts_cons, h1]
  simp

/-- Witness for C5 at the rejected London weather invocation. -/
theorem claim_C5_reject_synthesized_witness :
    resolvePart toolRegistry (.toolInvocation rejectInvocation) =
      (some (.toolInvocation
          ⟨9, "getWeatherInformation", "London", .rejected,
           some rejectionMessage, .reject⟩),
       [⟨9, "getWeatherInformation", .rejected, some rejectionMessage⟩], []) :=
  (claim_C5_reject_synthesized toolRegistry rejectInvocation weatherExec
    (by simp [toolRegistry, rejectInvocation]) rfl rfl).1

/-- C6: an approved confirmation-gated invocation whose executor throws is
captured into the terminal output-error state with the error message as its
result (the executor was invoked: its callId is recorded), and the pass is
not aborted: in a log with any parts before and after it, the parts after
are still processed exactly as they would be on their own, in order, each
per its own decision. -/
theorem claim_C6_executor_failure_isolated (reg : Registry)
    (inv : ToolInvocation) (exec : Exec) (e : String)
    (hg : reg inv.toolName = some (.gated exec))
    (ht : inv.state.isTerminal = false)
    (hd : inv.decision = .approve)
    (he : exec inv.args = .error e) :
    resolvePart reg (.toolInvocation inv) =
      (some (.toolInvocation { inv with state := .outputError, result := some e }),
       [⟨inv.callId, inv.toolName, .outputError, some e⟩], [inv.callId])
    ∧ ∀ ps qs, resolveParts reg (ps ++ Part.toolInvocation inv :: qs) =
        ⟨(resolveParts reg ps).parts ++
           Part.toolInvocation { inv with state := .outputError, result := some e } ::
             (resolveParts reg qs).parts,
         (resolveParts reg ps).events ++
           (⟨inv.callId, inv.toolName, .outputError, some e⟩ : Event) ::
             (resolveParts reg qs).events,
         (resolveParts reg ps).executed ++
           inv.callId :: (resolveParts reg qs).executed⟩ := by
  have h1 : resolvePart reg (.toolInvocation inv) =
      (some (.toolInvocation { inv with state := .outputError, result := some e }),
       [⟨inv.callId, inv.toolName, .outputError, some e⟩], [inv.callId]) := by
    simp [resolvePart, ht, hg, hd, he]
  refine ⟨h1, fun ps qs => ?_⟩
  rw [resolveParts_append, resolveParts_cons, h1]
  simp

/-- Witness for C6 at the always-failing gated tool. -/
theorem claim_C6_executor_failure_isolated_witness :
    resolvePart failingRegistry (.toolInvocation failInvocation) =
      (some (.toolInvocation
          ⟨3, "deployService", "prod", .outputError,
           some "executor failed", .approve⟩),
       [⟨3, "deployService", .outputError, some "executor failed"⟩], [3]) :=
  (claim_C6_executor_failure_isolated failingRegistry failInvocation
    failingExec "executor failed"
    (by simp [failingRegistry, failInvocation]) rfl rfl rfl).1

/-- C7: every tool of the tools object of tools.ts is exactly one of
auto-executing (declares an execute function and has no entry in the
executions object) or confirmation-gated (omits execute and has its
confirmation-executor registered in the executions object); equivalently,
no tool with both executors or with neither is part of the registry. -/
theorem claim_C7_registry_exactly_one (d : ToolDecl) (hd : d ∈ tools) :
    (d.hasExecute = true ∧ d.name ∉ executionNames)
    ∨ (d.hasExecute = false ∧ d.name ∈ executionNames) := by
  revert d
  decide

/-- Witness for C7 at the confirmation-gated weather tool. -/
theorem claim_C7_registry_exactly_one_witness :
    (⟨"getWeatherInformation", false⟩ : ToolDecl) ∈ tools
    ∧ (((⟨"getWeatherInformation", false⟩ : ToolDecl).hasExecute = true
          ∧ (⟨"getWeatherInformation", false⟩ : ToolDecl).name ∉ executionNames)
        ∨ ((⟨"getWeatherInformation", false⟩ : ToolDecl).hasExecute = false
          ∧ (⟨"getWeatherInformation", false⟩ : ToolDecl).name ∈ executionNames)) :=
  ⟨by decide, claim_C7_registry_exactly_one ⟨"getWeatherInformation", false⟩ (by decide)⟩

/-- C8: the cloneRepository tool returns the fixed success string for every
repoUrl and every sandbox behavior: its return value never depends on the
results of the git config and git clone commands it runs, so a failed clone
still reports success. -/
theorem claim_C8_clone_always_reports_success :
    (∀ (sandbox : Sandbox) (repoUrl : String),
      (cloneRepository sandbox repoUrl).1 = "Repository cloned successfully")
    ∧ (∀ (s₁ s₂ : Sandbox) (repoUrl : String),
      (cloneRepository s₁ repoUrl).1 = (cloneRepository s₂ repoUrl).1) :=
  ⟨fun _ _ => rfl, fun _ _ _ => rfl⟩

/-- C9: for every command whose sandbox execution completes, commandExecutor
returns a plain string and never a thrown error: the ok branch carrying
stdout when the execution succeeded and the ok branch carrying stderr when
it failed. -/
theorem claim_C9_command_failure_not_thrown (sandbox : Sandbox) (command : String) :
    (∀ e, commandExecutor sandbox command ≠ Except.error e)
    ∧ ((sandbox command).success = true →
        commandExecutor sandbox command = Except.ok (sandbox command).stdout)
    ∧ ((sandbox command).success = false →
        commandExecutor sandbox command = Except.ok (sandbox command).stderr) := by
  refine ⟨?_, ?_, ?_⟩
  · intro e
    cases h : (sandbox command).success <;> simp [commandExecutor, h]
  · intro h
    simp [commandExecutor, h]
  · intro h
    simp [commandExecutor, h]

/-- Witness for C9 on a concrete failing sandbox execution: the stderr
string comes back through the ok branch. -/
theorem claim_C9_command_failure_not_thrown_witness :
    commandExecutor (fun _ => ⟨false, "out", "err"⟩) "ls" = Except.ok "err"
    ∧ ∀ e, commandExecutor (fun _ => ⟨false, "out", "err"⟩) "ls" ≠ Except.error e :=
  ⟨(claim_C9_command_failure_not_thrown (fun _ => ⟨false, "out", "err"⟩) "ls").2.2 rfl,
   (claim_C9_command_failure_not_thrown (fun _ => ⟨false, "out", "err"⟩) "ls").1⟩

/-- C10: the auto-executing getLocalTime tool returns the constant string
10am for every location; its returned value is independent of the location
argument. -/
theorem claim_C10_local_time_constant :
    (∀ location, (getLocalTime location).2 = "10am")
    ∧ (∀ l₁ l₂, (getLocalTime l₁).2 = (getLocalTime l₂).2) :=
  ⟨fun _ => rfl, fun _ _ => rfl⟩

end GithubAgent
